import Mathlib

/-!
Verification of the XBRL filing download pipeline (`DownloadModule.py`).

The development shallowly embeds the pipeline: the SQLite ledger becomes a
pair of record lists (committed rows and the pending rows of the open
transaction; reads on the same connection see both), the filesystem becomes a
path-to-content association list, and the network becomes oracles supplied in
an environment (`Env`).  Python string methods used by the code
(`str.lower`, `str.upper`, `str.endswith`, `str.replace("-", "")`) are
embedded as executable functions on the character data of a string.
-/

/-- Embeds Python `str.lower()`. -/
def strLower (s : String) : String := ⟨s.data.map Char.toLower⟩

/-- Embeds Python `str.upper()`. -/
def strUpper (s : String) : String := ⟨s.data.map Char.toUpper⟩

/-- Embeds Python `s.endswith(post)`. -/
def strEndsWith (s post : String) : Bool :=
  decide (post.data.length ≤ s.data.length) &&
    (s.data.drop (s.data.length - post.data.length) == post.data)

/-- Embeds Python `s.replace("-", "")` as used on accession numbers. -/
def strRemoveDashes (s : String) : String := ⟨s.data.filter (fun c => c != '-')⟩

/-- Joins two path segments, embedding `pathlib`'s `/` operator. -/
def pjoin (a b : String) : String := a ++ "/" ++ b

/-- Catalog row for one filing, as produced by `get_filings_list`:
the `form`, `accessionNumber` and `reportDate` columns used by the code. -/
structure Filing where
  form : String
  accessionNumber : String
  reportDate : String
deriving Repr, DecidableEq

/-- One row of the `company_tickers.csv` input consumed by `main`. -/
structure Entity where
  ticker : String
  cik : String
deriving Repr, DecidableEq

/-- One row of the `filings` table (`ticker, cik, form_type, report_date,
accession_number, file_path`); the autoincrement `id` is the list position. -/
structure LedgerRecord where
  ticker : String
  cik : String
  form_type : String
  report_date : String
  accession_number : String
  file_path : String
deriving Repr, DecidableEq

/-- Member of a zip archive: its name in the archive and its bytes. -/
structure ZipMember where
  name : String
  data : String
deriving Repr, DecidableEq

/-- Bytes of a downloaded package, as seen by `zipfile.ZipFile`: either a
corrupt archive (opening raises `BadZipFile`) or a well-formed member list. -/
inductive ZipData where
  | corrupt : ZipData
  | archive : List ZipMember → ZipData
deriving Repr, DecidableEq

/-- Content of a file on disk: a written package or an extracted document. -/
inductive FileData where
  | zipf : ZipData → FileData
  | doc : String → FileData
deriving Repr, DecidableEq

/-- Outcome of one `requests.get` on the archive endpoint: HTTP 200 with a
body, a non-success status, or a transport-level exception. -/
inductive FetchOutcome where
  | success : ZipData → FetchOutcome
  | badStatus : FetchOutcome
  | netError : FetchOutcome
deriving Repr, DecidableEq

/-- Exceptions that can escape one iteration of the filing loop:
`zipfile.BadZipFile` on a corrupt package, and the `NameError` raised by the
`INSERT` line when `new_filename` was never assigned. -/
inductive PyExn where
  | badZipFile : PyExn
  | nameError : PyExn
deriving Repr, DecidableEq

/-- Filesystem: an association list from absolute paths to file contents. -/
abbrev FS := List (String × FileData)

/-- Looks up the content stored at path `p`. -/
def FS.lookup (fs : FS) (p : String) : Option FileData :=
  match fs with
  | [] => none
  | (q, d) :: rest => if q = p then some d else FS.lookup rest p

/-- Embeds `Path.exists()`. -/
def FS.hasPath (fs : FS) (p : String) : Bool := (FS.lookup fs p).isSome

/-- Embeds `os.remove`. -/
def FS.remove (fs : FS) (p : String) : FS :=
  match fs with
  | [] => []
  | (q, d) :: rest => if q = p then FS.remove rest p else (q, d) :: FS.remove rest p

/-- Writes content `d` at path `p`, overwriting any previous content. -/
def FS.write (fs : FS) (p : String) (d : FileData) : FS := (p, d) :: FS.remove fs p

/-- Embeds `os.rename src dst` (the source exists on every call site). -/
def FS.rename (fs : FS) (src dst : String) : FS :=
  match FS.lookup fs src with
  | some d => FS.write (FS.remove fs src) dst d
  | none => fs

/-- SQLite connection state: rows already committed and rows inserted in the
open transaction.  Queries on the same connection see both. -/
structure DB where
  committed : List LedgerRecord
  pending : List LedgerRecord
deriving Repr, DecidableEq

/-- Rows visible to a query on the connection that performed the inserts. -/
def DB.view (db : DB) : List LedgerRecord := db.committed ++ db.pending

/-- Embeds `SELECT COUNT(*) FROM filings WHERE accession_number = ?`. -/
def DB.countAcc (db : DB) (acc : String) : Nat :=
  (DB.view db).countP (fun r => r.accession_number == acc)

/-- Embeds `INSERT INTO filings ...` (appended to the open transaction). -/
def DB.insert (db : DB) (r : LedgerRecord) : DB :=
  { db with pending := db.pending ++ [r] }

/-- Embeds `conn.commit()`. -/
def DB.commit (db : DB) : DB := { committed := db.committed ++ db.pending, pending := [] }

/-- Embeds `conn.close()` without a prior commit: pending rows are lost and
only the committed rows remain durable. -/
def DB.close (db : DB) : List LedgerRecord := db.committed

/-- External world: the submissions catalog (`None` meaning the request or
JSON parse raises), the archive endpoint as a function of the URL and the
per-filing attempt index, and `pd.to_datetime(..).strftime('%Y-%m-%d')`. -/
structure Env where
  catalog : String → Option (List Filing)
  fetchArchive : String → Nat → FetchOutcome
  fmtDate : String → String

/-- Base URL of the archive endpoint (`base_url` in the code). -/
def base_url : String := "https://www.sec.gov/Archives/edgar/data/"

/-- Root directory of the extracted filing tree (`Path('D:/Filings')`). -/
def filingsRoot : String := "D:/Filings"

/-- Form types kept by `get_filings_list` (lower-cased comparison). -/
def recognizedForms : List String := ["10-k", "10-q", "20-f", "40-f"]

/-- URL of one filing's package:
`f'{base_url}{cik}/{accession_number.replace("-", "")}/{accession_number}-xbrl.zip'`. -/
def xbrlZipUrl (cik acc : String) : String :=
  base_url ++ cik ++ "/" ++ strRemoveDashes acc ++ "/" ++ acc ++ "-xbrl.zip"

/-- Deterministic document name `f"[{form_type.upper()}][{report_date}][{ticker}].xbrl"`. -/
def detName (form_type report_date ticker : String) : String :=
  "[" ++ strUpper form_type ++ "][" ++ report_date ++ "][" ++ ticker ++ "].xbrl"

/-- Condition `file.lower().endswith('.xml')` selecting archive members. -/
def isXmlName (nm : String) : Bool := strEndsWith (strLower nm) ".xml"

/-- Members of a package selected by the extraction loop. -/
def xmlMembers (ms : List ZipMember) : List ZipMember :=
  ms.filter (fun m => isXmlName m.name)

/-- Retry loop of `download_and_unzip_filings`: runs while `retries <
max_retries`, one `requests.get` per iteration, breaking on status 200.
Returns the body on success (`none` when the budget is exhausted, which is
exactly the `retries == max_retries` exit) together with the number of
download attempts performed. -/
def fetchWithRetry (env : Env) (url : String) : Nat → Nat → Option ZipData × Nat
  | 0, _ => (none, 0)
  | budget + 1, attempt =>
    match env.fetchArchive url attempt with
    | FetchOutcome.success z => (some z, 1)
    | _ =>
      let r := fetchWithRetry env url budget (attempt + 1)
      (r.1, r.2 + 1)

/-- Body of the member loop: for a matching member, extract it into the form
directory, delete a pre-existing file of the deterministic name, and rename
the extracted member to the deterministic name.  The accumulator carries the
filesystem and the current value of the Python local `new_filename`, which is
only assigned inside the matching branch and therefore persists across
iterations of the enclosing filing loop. -/
def extractMember (form_dir form_type report_date ticker : String)
    (st : FS × Option String) (m : ZipMember) : FS × Option String :=
  if isXmlName m.name then
    let new_filename := detName form_type report_date ticker
    let fs1 := FS.write st.1 (pjoin form_dir m.name) (FileData.doc m.data)
    let existing_file_path := pjoin form_dir new_filename
    let new_file_path := pjoin form_dir m.name
    let fs2 := if FS.hasPath fs1 existing_file_path then FS.remove fs1 existing_file_path else fs1
    (FS.rename fs2 new_file_path existing_file_path, some new_filename)
  else st

/-- State threaded through `download_and_unzip_filings` and `main`: the
database connection, the filesystem, the number of archive download attempts
issued so far, and the function-local `new_filename` variable. -/
structure St where
  db : DB
  fs : FS
  fetchCalls : Nat
  newFilename : Option String
deriving Repr, DecidableEq

/-- One iteration of the filing loop of `download_and_unzip_filings`, with
the retry budget `max_retries` as an explicit parameter (the source fixes it
to the literal `1`; see `processFiling`).  Returns the successor state and
the exception escaping the iteration, if any. -/
def processFilingGen (env : Env) (cik ticker : String) (max_retries : Nat)
    (filing : Filing) (s : St) : St × Option PyExn :=
  let form_type := strLower filing.form
  let form_dir := pjoin (pjoin filingsRoot ticker) form_type
  let accession_number := filing.accessionNumber
  if 0 < DB.countAcc s.db accession_number then
    (s, none)
  else
    let url := xbrlZipUrl cik accession_number
    let fr := fetchWithRetry env url max_retries 0
    let s1 : St := { s with fetchCalls := s.fetchCalls + fr.2 }
    match fr.1 with
    | none => (s1, none)
    | some body =>
      let zip_filename := pjoin form_dir (accession_number ++ "-xbrl.zip")
      let s2 : St := { s1 with fs := FS.write s1.fs zip_filename (FileData.zipf body) }
      match body with
      | ZipData.corrupt => (s2, some PyExn.badZipFile)
      | ZipData.archive members =>
        let report_date := env.fmtDate filing.reportDate
        let ex := members.foldl (extractMember form_dir form_type report_date ticker)
          (s2.fs, s2.newFilename)
        let fs3 := FS.remove ex.1 zip_filename
        match ex.2 with
        | none => ({ s2 with fs := fs3 }, some PyExn.nameError)
        | some new_filename =>
          let rec0 : LedgerRecord :=
            { ticker := ticker, cik := cik, form_type := form_type,
              report_date := report_date, accession_number := accession_number,
              file_path := pjoin form_dir new_filename }
          ({ s2 with
              fs := fs3,
              db := DB.insert s2.db rec0,
              newFilename := some new_filename }, none)

/-- One iteration of the filing loop with the source's `max_retries = 1`. -/
def processFiling (env : Env) (cik ticker : String) (filing : Filing) (s : St) :
    St × Option PyExn :=
  processFilingGen env cik ticker 1 filing s

/-- The filing loop: processes filings in order, stopping at the first
exception (which propagates to the caller with the state mutated so far). -/
def runFilings (env : Env) (cik ticker : String) :
    List Filing → St → St × Option PyExn
  | [], s => (s, none)
  | f :: rest, s =>
    match processFiling env cik ticker f s with
    | (s2, none) => runFilings env cik ticker rest s2
    | (s2, some e) => (s2, some e)

/-- Embeds `download_and_unzip_filings`: the local `new_filename` starts
unassigned on every call, then the filing loop runs. -/
def download_and_unzip_filings (env : Env) (cik ticker : String)
    (filings : List Filing) (s : St) : St × Option PyExn :=
  runFilings env cik ticker filings { s with newFilename := none }

/-- Embeds `get_filings_list`: one catalog lookup, filtered to the four
recognized form types (lower-cased). -/
def get_filings_list (env : Env) (cik : String) : Option (List Filing) :=
  match env.catalog cik with
  | none => none
  | some all_forms =>
    some (all_forms.filter (fun f => recognizedForms.contains (strLower f.form)))

/-- Body of `main`'s entity loop: catalog lookup, filing loop, and
`conn.commit()` — all inside `try`, so on any exception the commit is
skipped, the error is printed, and the loop moves on. -/
def processEntity (env : Env) (e : Entity) (s : St) : St :=
  match get_filings_list env e.cik with
  | none => s
  | some filings_list =>
    match download_and_unzip_filings env e.cik e.ticker filings_list s with
    | (s2, none) => { s2 with db := DB.commit s2.db }
    | (s2, some _) => s2

/-- The entity loop of `main`: every entity of the list is attempted. -/
def runEntities (env : Env) : List Entity → St → St
  | [], s => s
  | e :: rest, s => runEntities env rest (processEntity env e s)

/-- Position of the first input row whose `ticker` equals `t`, embedding
`company_data[company_data['ticker'] == t].index[0]` (`none` means the
lookup raises `IndexError`). -/
def firstTickerIdx (t : String) : List Entity → Option Nat
  | [] => none
  | e :: rest => if e.ticker = t then some 0 else (firstTickerIdx t rest).map (· + 1)

/-- Resume logic of `main`: the row of `SELECT ticker, cik FROM filings ORDER
BY id DESC LIMIT 1` is the last committed record; when it exists the entity
list is sliced from the first row with that ticker (`company_data.loc[i:]`),
and a missing ticker crashes the run (`none`). -/
def resumeEntities (committed : List LedgerRecord) (es : List Entity) :
    Option (List Entity) :=
  match committed.getLast? with
  | none => some es
  | some r =>
    match firstTickerIdx r.ticker es with
    | some i => some (es.drop i)
    | none => none

/-- Observable outcome of one run of `main`: the durable ledger after
`conn.close()`, the final filesystem, and the number of archive download
attempts issued. -/
structure RunResult where
  committed : List LedgerRecord
  fs : FS
  fetchCalls : Nat
deriving Repr, DecidableEq

/-- Embeds `main`: resume from the last committed record, run the entity
loop, then `conn.close()` (which discards any never-committed pending rows).
`none` is the `IndexError` crash of the resume lookup. -/
def main_run (env : Env) (es : List Entity) (committed0 : List LedgerRecord)
    (fs0 : FS) : Option RunResult :=
  match resumeEntities committed0 es with
  | none => none
  | some es2 =>
    let s := runEntities env es2
      { db := { committed := committed0, pending := [] }, fs := fs0,
        fetchCalls := 0, newFilename := none }
    some { committed := DB.close s.db, fs := s.fs, fetchCalls := s.fetchCalls }

/-- One column of the `filings` table as declared by `create_database`. -/
structure Column where
  name : String
  isIntegerPrimaryKeyAutoincrement : Bool
  isNotNullText : Bool
  hasUniqueConstraint : Bool
deriving Repr, DecidableEq

/-- Schema of `CREATE TABLE IF NOT EXISTS filings (...)`: an autoincrement
integer primary key and six `TEXT NOT NULL` columns; no column carries a
`UNIQUE` constraint. -/
def filingsSchema : List Column :=
  [ { name := "id", isIntegerPrimaryKeyAutoincrement := true,
      isNotNullText := false, hasUniqueConstraint := false },
    { name := "ticker", isIntegerPrimaryKeyAutoincrement := false,
      isNotNullText := true, hasUniqueConstraint := false },
    { name := "cik", isIntegerPrimaryKeyAutoincrement := false,
      isNotNullText := true, hasUniqueConstraint := false },
    { name := "form_type", isIntegerPrimaryKeyAutoincrement := false,
      isNotNullText := true, hasUniqueConstraint := false },
    { name := "report_date", isIntegerPrimaryKeyAutoincrement := false,
      isNotNullText := true, hasUniqueConstraint := false },
    { name := "accession_number", isIntegerPrimaryKeyAutoincrement := false,
      isNotNullText := true, hasUniqueConstraint := false },
    { name := "file_path", isIntegerPrimaryKeyAutoincrement := false,
      isNotNullText := true, hasUniqueConstraint := false } ]

/-- Accession numbers of a list of ledger rows. -/
def accs (l : List LedgerRecord) : List String := l.map (fun r => r.accession_number)

/-- Configuration of the `RateLimiter` class (`max_calls`, `period`). -/
structure RateLimiter where
  max_calls : Nat
  period : Nat

/-- State of the limiter: free permits of the semaphore, permits currently
held, and the shared `self.timer` written at the latest acquisition.  Time is
logical (natural-number seconds). -/
structure RLState where
  available : Nat
  outstanding : Nat
  timer : Nat
deriving Repr, DecidableEq

/-- Fresh limiter: `Semaphore(max_calls)`, nothing held. -/
def RLState.init (rl : RateLimiter) : RLState :=
  { available := rl.max_calls, outstanding := 0, timer := 0 }

/-- Embeds `__enter__` at time `now`: take one permit and stamp the timer. -/
def rlEnter (s : RLState) (now : Nat) : RLState :=
  { available := s.available - 1, outstanding := s.outstanding + 1, timer := now }

/-- Embeds `__exit__` at time `now`: if less than `period` elapsed since the
stamped timer, sleep out the remainder, then release the permit.  Returns the
new state and the time at which the permit is back in the pool. -/
def rlExit (rl : RateLimiter) (s : RLState) (now : Nat) : RLState × Nat :=
  let elapsed := now - s.timer
  let done := if elapsed < rl.period then s.timer + rl.period else now
  ({ s with available := s.available + 1, outstanding := s.outstanding - 1 }, done)

/-- Acquisition and release events of a timed trace against the limiter. -/
inductive RLEvent where
  | acq : Nat → RLEvent
  | rel : Nat → RLEvent

/-- Runs a trace of events: an acquisition blocks (no step) unless a permit
is free, and a release is only taken by a caller holding a permit. -/
def rlRun (rl : RateLimiter) : List RLEvent → RLState → Option RLState
  | [], s => some s
  | RLEvent.acq t :: rest, s =>
    if 0 < s.available then rlRun rl rest (rlEnter s t) else none
  | RLEvent.rel t :: rest, s =>
    if 0 < s.outstanding then rlRun rl rest (rlExit rl s t).1 else none

/-- Embeds `get_filings_list` together with its `with sec_rate_limiter:`
block: acquire at `now`, run the body (taking `dur` seconds, succeeding or
raising), and run `__exit__` on either exit path.  Returns the Python result,
the limiter state, and the time the permit returns to the pool. -/
def get_filings_list_rl (rl : RateLimiter) (env : Env) (cik : String)
    (s : RLState) (now dur : Nat) : Option (List Filing) × RLState × Nat :=
  let s1 := rlEnter s now
  match env.catalog cik with
  | none => (none, (rlExit rl s1 (now + dur)).1, (rlExit rl s1 (now + dur)).2)
  | some all_forms =>
    (some (all_forms.filter (fun f => recognizedForms.contains (strLower f.form))),
      (rlExit rl s1 (now + dur)).1, (rlExit rl s1 (now + dur)).2)

/-! ### Basic lemmas about the embedded primitives -/

lemma string_append_left_cancel {a b c : String} (h : a ++ b = a ++ c) : b = c := by
  cases a; cases b; cases c; simp_all [String.ext_iff]

lemma pjoin_right_inj {a b c : String} (h : pjoin a b = pjoin a c) : b = c := by
  simp only [pjoin] at h
  exact string_append_left_cancel h

lemma pjoin_right_ne {a : String} {b c : String} (h : b ≠ c) : pjoin a b ≠ pjoin a c :=
  fun hc => h (pjoin_right_inj hc)

lemma lookup_remove_self (fs : FS) (p : String) :
    FS.lookup (FS.remove fs p) p = none := by
  induction fs with
  | nil => rfl
  | cons a rest ih =>
    obtain ⟨k, d⟩ := a
    by_cases hkp : k = p <;> simp [FS.remove, FS.lookup, hkp, ih]

lemma lookup_remove (fs : FS) (q p : String) :
    FS.lookup (FS.remove fs q) p = if q = p then none else FS.lookup fs p := by
  by_cases hqp : q = p
  · subst hqp; simp [lookup_remove_self]
  · simp only [if_neg hqp]
    induction fs with
    | nil => rfl
    | cons a rest ih =>
      obtain ⟨k, d⟩ := a
      have hpq : ¬ p = q := fun h => hqp h.symm
      by_cases hkq : k = q
      · have hkp : ¬ k = p := by rw [hkq]; exact hqp
        simp [FS.remove, FS.lookup, hkq, hkp, hqp, ih]
      · by_cases hkp : k = p <;> simp [FS.remove, FS.lookup, hkq, hkp, hpq, hqp, ih]

lemma lookup_write (fs : FS) (q p : String) (d : FileData) :
    FS.lookup (FS.write fs q d) p = if q = p then some d else FS.lookup fs p := by
  by_cases h : q = p <;> simp [FS.write, FS.lookup, lookup_remove, h]

lemma countAcc_eq_zero_iff (db : DB) (a : String) :
    DB.countAcc db a = 0 ↔ a ∉ accs (DB.view db) := by
  rw [DB.countAcc, List.countP_eq_zero]
  simp [accs, List.mem_map]

lemma countAcc_pos_iff (db : DB) (a : String) :
    0 < DB.countAcc db a ↔ a ∈ accs (DB.view db) := by
  rw [Nat.pos_iff_ne_zero, ne_eq, countAcc_eq_zero_iff]
  exact not_not

/-! ### Characterization of one filing-loop iteration -/

lemma fetch_fail_all (env : Env) (url : String)
    (hfail : ∀ i z, env.fetchArchive url i ≠ FetchOutcome.success z) :
    ∀ budget attempt, fetchWithRetry env url budget attempt = (none, budget) := by
  intro budget
  induction budget with
  | zero => intro a; rfl
  | succ b ih =>
    intro a
    simp only [fetchWithRetry]
    cases henv : env.fetchArchive url a with
    | success z => exact absurd henv (hfail a z)
    | badStatus => simp [ih]
    | netError => simp [ih]

lemma pf_skip (env : Env) (cik tk : String) (N : Nat) (f : Filing) (s : St)
    (h : 0 < DB.countAcc s.db f.accessionNumber) :
    processFilingGen env cik tk N f s = (s, none) := by
  simp only [processFilingGen]
  rw [if_pos h]

lemma pf_fetchFail (env : Env) (cik tk : String) (N : Nat) (f : Filing) (s : St)
    (hd : ¬ 0 < DB.countAcc s.db f.accessionNumber)
    (hfail : ∀ i z, env.fetchArchive (xbrlZipUrl cik f.accessionNumber) i ≠
      FetchOutcome.success z) :
    processFilingGen env cik tk N f s = ({ s with fetchCalls := s.fetchCalls + N }, none) := by
  simp only [processFilingGen]
  rw [if_neg hd, fetch_fail_all env _ hfail N 0]

lemma pf_cases (env : Env) (cik tk : String) (N : Nat) (f : Filing) (s : St) :
    (processFilingGen env cik tk N f s).1.db = s.db ∨
    (∃ rd nf, DB.countAcc s.db f.accessionNumber = 0 ∧
      (processFilingGen env cik tk N f s).1.db = DB.insert s.db
        { ticker := tk, cik := cik, form_type := strLower f.form, report_date := rd,
          accession_number := f.accessionNumber, file_path := nf }) := by
  simp only [processFilingGen]
  split
  · left; rfl
  · rename_i hd
    split
    · left; rfl
    · split
      · left; rfl
      · split
        · left; rfl
        · right
          exact ⟨_, _, Nat.eq_zero_of_not_pos hd, rfl⟩

lemma pf_committed (env : Env) (cik tk : String) (N : Nat) (f : Filing) (s : St) :
    (processFilingGen env cik tk N f s).1.db.committed = s.db.committed := by
  rcases pf_cases env cik tk N f s with h | ⟨rd, nf, h0, h⟩ <;> simp [h, DB.insert]

lemma pf_view_mem (env : Env) (cik tk : String) (N : Nat) (f : Filing) (s : St) :
    ∀ r ∈ DB.view (processFilingGen env cik tk N f s).1.db,
      r ∈ DB.view s.db ∨ r.ticker = tk := by
  rcases pf_cases env cik tk N f s with h | ⟨rd, nf, h0, h⟩ <;> intro r hr
  · rw [h] at hr; exact Or.inl hr
  · rw [h] at hr
    simp only [DB.view, DB.insert, List.mem_append, List.mem_singleton] at hr
    rcases hr with hr | hr | hr
    · exact Or.inl (List.mem_append.mpr (Or.inl hr))
    · exact Or.inl (List.mem_append.mpr (Or.inr hr))
    · subst hr; exact Or.inr rfl

lemma view_insert (db : DB) (r : LedgerRecord) :
    DB.view (DB.insert db r) = DB.view db ++ [r] := by
  simp [DB.view, DB.insert]

lemma pf_nodup (env : Env) (cik tk : String) (N : Nat) (f : Filing) (s : St)
    (h : (accs (DB.view s.db)).Nodup) :
    (accs (DB.view (processFilingGen env cik tk N f s).1.db)).Nodup := by
  rcases pf_cases env cik tk N f s with hc | ⟨rd, nf, h0, hc⟩
  · rw [hc]; exact h
  · rw [hc, view_insert]
    have hnotin : f.accessionNumber ∉ accs (DB.view s.db) :=
      (countAcc_eq_zero_iff s.db f.accessionNumber).mp h0
    simp only [accs, List.map_append, List.map_cons, List.map_nil] at h ⊢
    rw [List.nodup_append]
    refine ⟨h, List.nodup_singleton _, ?_⟩
    intro a ha hb
    simp only [List.mem_singleton] at hb
    subst hb
    exact hnotin ha

lemma rf_committed (env : Env) (cik tk : String) :
    ∀ (fl : List Filing) (s : St),
      (runFilings env cik tk fl s).1.db.committed = s.db.committed := by
  intro fl
  induction fl with
  | nil => intro s; rfl
  | cons f rest ih =>
    intro s
    simp only [runFilings, processFiling]
    cases hpf : processFilingGen env cik tk 1 f s with
    | mk s2 e =>
      have hc : s2.db.committed = s.db.committed := by
        have := pf_committed env cik tk 1 f s
        rw [hpf] at this
        exact this
      cases e with
      | none => simpa [hc] using ih s2
      | some ex => simpa using hc

lemma rf_view_mem (env : Env) (cik tk : String) :
    ∀ (fl : List Filing) (s : St),
      ∀ r ∈ DB.view (runFilings env cik tk fl s).1.db,
        r ∈ DB.view s.db ∨ r.ticker = tk := by
  intro fl
  induction fl with
  | nil => intro s r hr; exact Or.inl hr
  | cons f rest ih =>
    intro s r
    simp only [runFilings, processFiling]
    cases hpf : processFilingGen env cik tk 1 f s with
    | mk s2 e =>
      have hstep : ∀ r2 ∈ DB.view s2.db, r2 ∈ DB.view s.db ∨ r2.ticker = tk := by
        have := pf_view_mem env cik tk 1 f s
        rw [hpf] at this
        exact this
      cases e with
      | none =>
        intro hr
        rcases ih s2 r hr with h2 | h2
        · exact hstep r h2
        · exact Or.inr h2
      | some ex => intro hr; exact hstep r hr

lemma rf_nodup (env : Env) (cik tk : String) :
    ∀ (fl : List Filing) (s : St),
      (accs (DB.view s.db)).Nodup →
      (accs (DB.view (runFilings env cik tk fl s).1.db)).Nodup := by
  intro fl
  induction fl with
  | nil => intro s h; exact h
  | cons f rest ih =>
    intro s h
    simp only [runFilings, processFiling]
    cases hpf : processFilingGen env cik tk 1 f s with
    | mk s2 e =>
      have h2 : (accs (DB.view s2.db)).Nodup := by
        have := pf_nodup env cik tk 1 f s h
        rw [hpf] at this
        exact this
      cases e with
      | none => exact ih s2 h2
      | some ex => exact h2

lemma view_commit (db : DB) : DB.view (DB.commit db) = DB.view db := by
  simp [DB.view, DB.commit]

lemma pe_view_mem (env : Env) (e : Entity) (s : St) :
    ∀ r ∈ DB.view (processEntity env e s).db,
      r ∈ DB.view s.db ∨ r.ticker = e.ticker := by
  intro r
  unfold processEntity
  cases hcat : get_filings_list env e.cik with
  | none => intro hr; exact Or.inl hr
  | some fl =>
    simp only [download_and_unzip_filings]
    cases hdl : runFilings env e.cik e.ticker fl { s with newFilename := none } with
    | mk s2 exn =>
      have hmem : ∀ r2 ∈ DB.view s2.db, r2 ∈ DB.view s.db ∨ r2.ticker = e.ticker := by
        have := rf_view_mem env e.cik e.ticker fl { s with newFilename := none }
        rw [hdl] at this
        exact this
      cases exn with
      | none =>
        intro hr
        simp only [view_commit] at hr
        exact hmem r hr
      | some ex => intro hr; exact hmem r hr

lemma pe_nodup (env : Env) (e : Entity) (s : St)
    (h : (accs (DB.view s.db)).Nodup) :
    (accs (DB.view (processEntity env e s).db)).Nodup := by
  unfold processEntity
  cases hcat : get_filings_list env e.cik with
  | none => exact h
  | some fl =>
    simp only [download_and_unzip_filings]
    cases hdl : runFilings env e.cik e.ticker fl { s with newFilename := none } with
    | mk s2 exn =>
      have h2 : (accs (DB.view s2.db)).Nodup := by
        have := rf_nodup env e.cik e.ticker fl { s with newFilename := none } h
        rw [hdl] at this
        exact this
      cases exn with
      | none => simpa [view_commit] using h2
      | some ex => exact h2

lemma re_view_mem (env : Env) :
    ∀ (es : List Entity) (s : St),
      ∀ r ∈ DB.view (runEntities env es s).db,
        r ∈ DB.view s.db ∨ r.ticker ∈ es.map Entity.ticker := by
  intro es
  induction es with
  | nil => intro s r hr; exact Or.inl hr
  | cons e rest ih =>
    intro s r hr
    simp only [runEntities] at hr
    rcases ih (processEntity env e s) r hr with h | h
    · rcases pe_view_mem env e s r h with h2 | h2
      · exact Or.inl h2
      · right; simp [h2]
    · right; simp [h]

lemma re_nodup (env : Env) :
    ∀ (es : List Entity) (s : St),
      (accs (DB.view s.db)).Nodup →
      (accs (DB.view (runEntities env es s).db)).Nodup := by
  intro es
  induction es with
  | nil => intro s h; exact h
  | cons e rest ih =>
    intro s h
    simp only [runEntities]
    exact ih (processEntity env e s) (pe_nodup env e s h)

lemma rf_all_ledgered (env : Env) (cik tk : String) :
    ∀ (fl : List Filing) (s : St),
      (∀ f ∈ fl, f.accessionNumber ∈ accs (DB.view s.db)) →
      runFilings env cik tk fl s = (s, none) := by
  intro fl
  induction fl with
  | nil => intro s _; rfl
  | cons f rest ih =>
    intro s h
    have hsk := pf_skip env cik tk 1 f s
      ((countAcc_pos_iff s.db f.accessionNumber).mpr (h f (by simp)))
    simp only [runFilings, processFiling, hsk]
    exact ih s (fun f2 hf2 => h f2 (by simp [hf2]))

lemma pe_all_ledgered (env : Env) (e : Entity) (L : List LedgerRecord) (fs : FS)
    (c : Nat) (nf : Option String)
    (h : ∀ fl, get_filings_list env e.cik = some fl →
      ∀ f ∈ fl, f.accessionNumber ∈ accs L) :
    ∃ nf2, processEntity env e ⟨⟨L, []⟩, fs, c, nf⟩ = ⟨⟨L, []⟩, fs, c, nf2⟩ := by
  unfold processEntity
  cases hcat : get_filings_list env e.cik with
  | none => exact ⟨nf, rfl⟩
  | some fl =>
    have h2 : ∀ f ∈ fl, f.accessionNumber ∈
        accs (DB.view (⟨⟨L, []⟩, fs, c, none⟩ : St).db) := by
      intro f hf
      simpa [DB.view] using h fl hcat f hf
    have hrf := rf_all_ledgered env e.cik e.ticker fl ⟨⟨L, []⟩, fs, c, none⟩ h2
    simp only [download_and_unzip_filings]
    refine ⟨none, ?_⟩
    have hst : ({ (⟨⟨L, []⟩, fs, c, nf⟩ : St) with newFilename := none } : St) =
        ⟨⟨L, []⟩, fs, c, none⟩ := rfl
    rw [hst, hrf]
    simp [DB.commit]

lemma re_all_ledgered (env : Env) (L : List LedgerRecord) (fs : FS) (c : Nat) :
    ∀ (es : List Entity),
      (∀ e ∈ es, ∀ fl, get_filings_list env e.cik = some fl →
        ∀ f ∈ fl, f.accessionNumber ∈ accs L) →
      ∀ nf, ∃ nf2, runEntities env es ⟨⟨L, []⟩, fs, c, nf⟩ = ⟨⟨L, []⟩, fs, c, nf2⟩ := by
  intro es
  induction es with
  | nil => intro _ nf; exact ⟨nf, rfl⟩
  | cons e rest ih =>
    intro h nf
    obtain ⟨nf2, hpe⟩ := pe_all_ledgered env e L fs c nf (h e (by simp))
    simp only [runEntities, hpe]
    exact ih (fun e2 he2 => h e2 (by simp [he2])) nf2

lemma firstTickerIdx_isSome (t : String) :
    ∀ es : List Entity, (∃ e ∈ es, e.ticker = t) →
      ∃ i, firstTickerIdx t es = some i := by
  intro es
  induction es with
  | nil => rintro ⟨e, he, _⟩; cases he
  | cons e rest ih =>
    rintro ⟨e2, he2, ht⟩
    by_cases h : e.ticker = t
    · exact ⟨0, by simp [firstTickerIdx, h]⟩
    · rcases List.mem_cons.mp he2 with rfl | hmem
      · exact absurd ht h
      · obtain ⟨i, hi⟩ := ih ⟨e2, hmem, ht⟩
        exact ⟨i + 1, by simp [firstTickerIdx, h, hi]⟩

lemma head?_drop_eq_get? {α : Type} :
    ∀ (l : List α) (i : Nat), (l.drop i).head? = l.get? i := by
  intro l
  induction l with
  | nil => intro i; cases i <;> rfl
  | cons a rest ih =>
    intro i
    cases i with
    | zero => rfl
    | succ j => simp only [List.drop_succ_cons, List.get?_cons_succ]; exact ih j

/-! ### Concrete fixtures used by witnesses and counterexamples -/

/-- Environment whose catalog always raises and whose archive endpoint always
returns a non-success status. -/
def wEnvFail : Env :=
  { catalog := fun _ => none,
    fetchArchive := fun _ _ => FetchOutcome.badStatus,
    fmtDate := fun s => s }

/-- A ledger row for accession number `A-1` of ticker `T`. -/
def wRec : LedgerRecord :=
  { ticker := "T", cik := "1", form_type := "10-k", report_date := "2020-01-01",
    accession_number := "A-1", file_path := "p" }

/-- A catalog row for the filing recorded by `wRec`. -/
def wFiling : Filing :=
  { form := "10-K", accessionNumber := "A-1", reportDate := "2020-01-01" }

/-- State whose ledger already contains `wRec`, committed. -/
def wSt : St :=
  { db := { committed := [wRec], pending := [] }, fs := [], fetchCalls := 0,
    newFilename := none }

/-- Empty starting state. -/
def wSt0 : St :=
  { db := { committed := [], pending := [] }, fs := [], fetchCalls := 0,
    newFilename := none }

/-! ### Claim theorems -/

/-- C2: for a filing whose accession number is already present in the ledger
at the time of the dedup check, the filing-loop iteration returns the state
unchanged (no fetch attempt, no filesystem activity, no insert) and the loop
proceeds directly to the remaining filings. -/
theorem C2_dedup_skip (env : Env) (cik tk : String) (f : Filing)
    (rest : List Filing) (s : St)
    (h : 0 < DB.countAcc s.db f.accessionNumber) :
    processFiling env cik tk f s = (s, none) ∧
    runFilings env cik tk (f :: rest) s = runFilings env cik tk rest s := by
  have hs := pf_skip env cik tk 1 f s h
  refine ⟨hs, ?_⟩
  simp only [runFilings, processFiling, hs]

/-- Witness for C2 at a concrete ledgered filing. -/
theorem C2_dedup_skip_witness :
    0 < DB.countAcc wSt.db wFiling.accessionNumber ∧
    (processFiling wEnvFail "1" "T" wFiling wSt = (wSt, none) ∧
     runFilings wEnvFail "1" "T" [wFiling] wSt = runFilings wEnvFail "1" "T" [] wSt) :=
  ⟨by decide, C2_dedup_skip wEnvFail "1" "T" wFiling [] wSt (by decide)⟩

/-- C3: when the ledger is non-empty, its most recent record belongs to
entity `E`, and `E` is the first input row carrying its ticker (at position
`i`), a fresh run resumes entity iteration exactly at the suffix of the
input starting at `E`: the resume slice is `es.drop i`, its head is `E`, and
`main` iterates over precisely that suffix. -/
theorem C3_resume_at_last_entity (L : List LedgerRecord) (es : List Entity)
    (r : LedgerRecord) (E : Entity) (i : Nat)
    (hlast : L.getLast? = some r)
    (hfirst : firstTickerIdx r.ticker es = some i)
    (hEi : es.get? i = some E) :
    resumeEntities L es = some (es.drop i) ∧
    (es.drop i).head? = some E ∧
    ∀ (env : Env) (fs0 : FS),
      main_run env es L fs0 =
        some { committed := DB.close (runEntities env (es.drop i)
                 { db := { committed := L, pending := [] }, fs := fs0,
                   fetchCalls := 0, newFilename := none }).db,
               fs := (runEntities env (es.drop i)
                 { db := { committed := L, pending := [] }, fs := fs0,
                   fetchCalls := 0, newFilename := none }).fs,
               fetchCalls := (runEntities env (es.drop i)
                 { db := { committed := L, pending := [] }, fs := fs0,
                   fetchCalls := 0, newFilename := none }).fetchCalls } := by
  have hres : resumeEntities L es = some (es.drop i) := by
    simp only [resumeEntities, hlast, hfirst]
  refine ⟨hres, ?_, ?_⟩
  · rw [head?_drop_eq_get?, hEi]
  · intro env fs0
    unfold main_run
    rw [hres]

/-- Witness for C3: ledger ends with a `T` record, input is `S, T, U`, so a
fresh run starts at `T` (position 1), not at `S`. -/
theorem C3_resume_at_last_entity_witness :
    ([wRec].getLast? = some wRec ∧
     firstTickerIdx wRec.ticker [⟨"S", "0"⟩, ⟨"T", "1"⟩, ⟨"U", "2"⟩] = some 1 ∧
     ([⟨"S", "0"⟩, ⟨"T", "1"⟩, ⟨"U", "2"⟩] : List Entity).get? 1 = some ⟨"T", "1"⟩) ∧
    (resumeEntities [wRec] [⟨"S", "0"⟩, ⟨"T", "1"⟩, ⟨"U", "2"⟩] =
      some (([⟨"S", "0"⟩, ⟨"T", "1"⟩, ⟨"U", "2"⟩] : List Entity).drop 1) ∧
     (([⟨"S", "0"⟩, ⟨"T", "1"⟩, ⟨"U", "2"⟩] : List Entity).drop 1).head? =
       some ⟨"T", "1"⟩ ∧
     ∀ (env : Env) (fs0 : FS),
       main_run env [⟨"S", "0"⟩, ⟨"T", "1"⟩, ⟨"U", "2"⟩] [wRec] fs0 =
         some { committed := DB.close (runEntities env
                  (([⟨"S", "0"⟩, ⟨"T", "1"⟩, ⟨"U", "2"⟩] : List Entity).drop 1)
                  { db := { committed := [wRec], pending := [] }, fs := fs0,
                    fetchCalls := 0, newFilename := none }).db,
                fs := (runEntities env
                  (([⟨"S", "0"⟩, ⟨"T", "1"⟩, ⟨"U", "2"⟩] : List Entity).drop 1)
                  { db := { committed := [wRec], pending := [] }, fs := fs0,
                    fetchCalls := 0, newFilename := none }).fs,
                fetchCalls := (runEntities env
                  (([⟨"S", "0"⟩, ⟨"T", "1"⟩, ⟨"U", "2"⟩] : List Entity).drop 1)
                  { db := { committed := [wRec], pending := [] }, fs := fs0,
                    fetchCalls := 0, newFilename := none }).fetchCalls }) :=
  ⟨⟨by decide, by decide, by decide⟩,
   C3_resume_at_last_entity [wRec] [⟨"S", "0"⟩, ⟨"T", "1"⟩, ⟨"U", "2"⟩] wRec
     ⟨"T", "1"⟩ 1 (by decide) (by decide) (by decide)⟩

/-- C4: against a permanently failing archive endpoint, the retry loop with
budget `N` performs exactly `N` download attempts and returns no body; the
filing-loop iteration then ends without an exception, having only increased
the attempt counter by `N`; and with the source's budget of `1` the filing
loop simply moves on to the next filing of the same entity. -/
theorem C4_retry_exhaustion (env : Env) (cik tk : String) (N : Nat) (f : Filing)
    (rest : List Filing) (s : St)
    (hd : DB.countAcc s.db f.accessionNumber = 0)
    (hfail : ∀ i z, env.fetchArchive (xbrlZipUrl cik f.accessionNumber) i ≠
      FetchOutcome.success z) :
    fetchWithRetry env (xbrlZipUrl cik f.accessionNumber) N 0 = (none, N) ∧
    processFilingGen env cik tk N f s =
      ({ s with fetchCalls := s.fetchCalls + N }, none) ∧
    runFilings env cik tk (f :: rest) s =
      runFilings env cik tk rest { s with fetchCalls := s.fetchCalls + 1 } := by
  have hnd : ¬ 0 < DB.countAcc s.db f.accessionNumber := by omega
  refine ⟨fetch_fail_all env _ hfail N 0,
    pf_fetchFail env cik tk N f s hnd hfail, ?_⟩
  have h1 := pf_fetchFail env cik tk 1 f s hnd hfail
  simp only [runFilings, processFiling, h1]

/-- Witness for C4 with budget 3 against the always-failing endpoint. -/
theorem C4_retry_exhaustion_witness :
    (DB.countAcc wSt0.db wFiling.accessionNumber = 0 ∧
     ∀ i z, wEnvFail.fetchArchive (xbrlZipUrl "1" "A-1") i ≠
       FetchOutcome.success z) ∧
    (fetchWithRetry wEnvFail (xbrlZipUrl "1" "A-1") 3 0 = (none, 3) ∧
     processFilingGen wEnvFail "1" "T" 3 wFiling wSt0 =
       ({ wSt0 with fetchCalls := wSt0.fetchCalls + 3 }, none) ∧
     runFilings wEnvFail "1" "T" [wFiling] wSt0 =
       runFilings wEnvFail "1" "T" [] { wSt0 with fetchCalls := wSt0.fetchCalls + 1 }) :=
  ⟨⟨by decide, fun i z h => nomatch h⟩,
   C4_retry_exhaustion wEnvFail "1" "T" 3 wFiling [] wSt0 (by decide)
     (fun i z h => nomatch h)⟩

/-! ### Rate limiter lemmas and claim C9 -/

lemma rlRun_invariant (rl : RateLimiter) :
    ∀ (evs : List RLEvent) (s : RLState),
      s.available + s.outstanding = rl.max_calls →
      ∀ s2, rlRun rl evs s = some s2 →
        s2.available + s2.outstanding = rl.max_calls := by
  intro evs
  induction evs with
  | nil =>
    intro s h s2 h2
    simp only [rlRun, Option.some.injEq] at h2
    rw [← h2]
    exact h
  | cons ev rest ih =>
    intro s h s2 h2
    cases ev with
    | acq t =>
      simp only [rlRun] at h2
      by_cases hav : 0 < s.available
      · rw [if_pos hav] at h2
        exact ih (rlEnter s t) (by simp [rlEnter]; omega) s2 h2
      · rw [if_neg hav] at h2
        cases h2
    | rel t =>
      simp only [rlRun] at h2
      by_cases hout : 0 < s.outstanding
      · rw [if_pos hout] at h2
        exact ih (rlExit rl s t).1 (by simp [rlExit]; omega) s2 h2
      · rw [if_neg hout] at h2
        cases h2

/-- C9: the limiter's release-with-delay runs on both exit paths of the
`with` block around the catalog call (the returned limiter state has the
permit back regardless of whether the body returned or raised); the permit
only becomes available again at least `period` after the acquisition time;
and along any valid event trace from a fresh limiter, at most `max_calls`
permits are ever outstanding. -/
theorem C9_rate_limit_release (rl : RateLimiter) (env : Env) (cik : String)
    (s : RLState) (now dur : Nat)
    (hs : 0 < s.available) :
    ((get_filings_list_rl rl env cik s now dur).2.1.available = s.available ∧
     (get_filings_list_rl rl env cik s now dur).2.1.outstanding = s.outstanding) ∧
    now + rl.period ≤ (get_filings_list_rl rl env cik s now dur).2.2 ∧
    (∀ evs s2, rlRun rl evs (RLState.init rl) = some s2 →
      s2.outstanding ≤ rl.max_calls) := by
  refine ⟨?_, ?_, ?_⟩
  · unfold get_filings_list_rl
    cases env.catalog cik <;> simp [rlEnter, rlExit] <;> omega
  · unfold get_filings_list_rl
    cases env.catalog cik <;> simp only [rlEnter, rlExit] <;> split <;> omega
  · intro evs s2 h2
    have := rlRun_invariant rl evs (RLState.init rl) (by simp [RLState.init]) s2 h2
    omega

/-- Witness for C9 with `max_calls = 10`, `period = 1` at time 5. -/
theorem C9_rate_limit_release_witness :
    0 < (RLState.init ⟨10, 1⟩).available ∧
    (((get_filings_list_rl ⟨10, 1⟩ wEnvFail "1" (RLState.init ⟨10, 1⟩) 5 0).2.1.available =
        (RLState.init ⟨10, 1⟩).available ∧
      (get_filings_list_rl ⟨10, 1⟩ wEnvFail "1" (RLState.init ⟨10, 1⟩) 5 0).2.1.outstanding =
        (RLState.init ⟨10, 1⟩).outstanding) ∧
     5 + (1 : Nat) ≤ (get_filings_list_rl ⟨10, 1⟩ wEnvFail "1" (RLState.init ⟨10, 1⟩) 5 0).2.2 ∧
     (∀ evs s2, rlRun ⟨10, 1⟩ evs (RLState.init ⟨10, 1⟩) = some s2 →
       s2.outstanding ≤ (10 : Nat))) :=
  ⟨by decide, C9_rate_limit_release ⟨10, 1⟩ wEnvFail "1" (RLState.init ⟨10, 1⟩) 5 0 (by decide)⟩

/-! ### Corrupt packages and entity-level exception handling (C5, C8) -/

lemma pf_corrupt (env : Env) (cik tk : String) (N : Nat) (f : Filing) (s : St)
    (hd : ¬ 0 < DB.countAcc s.db f.accessionNumber)
    (hb : (fetchWithRetry env (xbrlZipUrl cik f.accessionNumber) N 0).1 =
      some ZipData.corrupt) :
    processFilingGen env cik tk N f s =
      ({ s with
          fetchCalls := s.fetchCalls +
            (fetchWithRetry env (xbrlZipUrl cik f.accessionNumber) N 0).2,
          fs := FS.write s.fs
            (pjoin (pjoin (pjoin filingsRoot tk) (strLower f.form))
              (f.accessionNumber ++ "-xbrl.zip"))
            (FileData.zipf ZipData.corrupt) },
        some PyExn.badZipFile) := by
  simp only [processFilingGen]
  rw [if_neg hd]
  simp only [hb]

/-- A second catalog row (`10-Q`, accession `A-2`). -/
def wFiling2 : Filing :=
  { form := "10-Q", accessionNumber := "A-2", reportDate := "2021-01-01" }

/-- The entity used by the concrete scenarios. -/
def wEntity : Entity := { ticker := "T", cik := "1" }

/-- Environment where filing `A-1` downloads as a corrupt package while
filing `A-2` would download fine. -/
def envCorruptFirst : Env :=
  { catalog := fun c => if c = "1" then some [wFiling, wFiling2] else none,
    fetchArchive := fun url _ =>
      if url = xbrlZipUrl "1" "A-1" then FetchOutcome.success ZipData.corrupt
      else if url = xbrlZipUrl "1" "A-2" then
        FetchOutcome.success (ZipData.archive [⟨"a.xml", "x"⟩])
      else FetchOutcome.badStatus,
    fmtDate := fun s => s }

/-- C5 as stated is false: with the first package corrupt and the second
perfectly downloadable, the filing loop stops at the corrupt package with a
`BadZipFile` exception after a single fetch, and the second filing of the
same entity is never fetched nor ledgered — the failure is entity-scoped,
not filing-scoped. -/
theorem C5_counterexample_corrupt_aborts_entity :
    (runFilings envCorruptFirst "1" "T" [wFiling, wFiling2] wSt0).2 =
      some PyExn.badZipFile ∧
    (runFilings envCorruptFirst "1" "T" [wFiling, wFiling2] wSt0).1.fetchCalls = 1 ∧
    DB.countAcc (runFilings envCorruptFirst "1" "T" [wFiling, wFiling2] wSt0).1.db
      "A-2" = 0 := by
  refine ⟨by decide, by decide, by decide⟩

/-- C5 (amended): a corrupt package raises an exception that propagates out
of the filing loop: no ledger row is written for that filing, the partially
written package file is left on disk, the remaining filings of the entity
are skipped, the per-entity handler swallows the exception without a commit,
and the run proceeds with the next entity. -/
theorem C5_corrupt_package_behaviour (env : Env) (e : Entity) (f : Filing)
    (rest : List Filing) (s : St)
    (hcat : get_filings_list env e.cik = some (f :: rest))
    (hd : DB.countAcc s.db f.accessionNumber = 0)
    (hb : (fetchWithRetry env (xbrlZipUrl e.cik f.accessionNumber) 1 0).1 =
      some ZipData.corrupt) :
    runFilings env e.cik e.ticker (f :: rest) { s with newFilename := none } =
      (processEntity env e s, some PyExn.badZipFile) ∧
    (processEntity env e s).db = s.db ∧
    FS.hasPath (processEntity env e s).fs
      (pjoin (pjoin (pjoin filingsRoot e.ticker) (strLower f.form))
        (f.accessionNumber ++ "-xbrl.zip")) = true ∧
    (∀ es2, runEntities env (e :: es2) s = runEntities env es2 (processEntity env e s)) := by
  have hnd : ¬ 0 < DB.countAcc s.db f.accessionNumber := by omega
  have hpf := pf_corrupt env e.cik e.ticker 1 f { s with newFilename := none } hnd hb
  have hrf : runFilings env e.cik e.ticker (f :: rest) { s with newFilename := none } =
      ({ s with
          newFilename := none,
          fetchCalls := s.fetchCalls +
            (fetchWithRetry env (xbrlZipUrl e.cik f.accessionNumber) 1 0).2,
          fs := FS.write s.fs
            (pjoin (pjoin (pjoin filingsRoot e.ticker) (strLower f.form))
              (f.accessionNumber ++ "-xbrl.zip"))
            (FileData.zipf ZipData.corrupt) },
        some PyExn.badZipFile) := by
    simp only [runFilings, processFiling, hpf]
  have hpe : processEntity env e s =
      { s with
          newFilename := none,
          fetchCalls := s.fetchCalls +
            (fetchWithRetry env (xbrlZipUrl e.cik f.accessionNumber) 1 0).2,
          fs := FS.write s.fs
            (pjoin (pjoin (pjoin filingsRoot e.ticker) (strLower f.form))
              (f.accessionNumber ++ "-xbrl.zip"))
            (FileData.zipf ZipData.corrupt) } := by
    simp only [processEntity, hcat, download_and_unzip_filings, hrf]
  refine ⟨?_, ?_, ?_, ?_⟩
  · rw [hrf, hpe]
  · rw [hpe]
  · rw [hpe]
    simp [FS.hasPath, lookup_write]
  · intro es2
    simp only [runEntities]

/-- Witness for C5's amended theorem at the concrete corrupt scenario. -/
theorem C5_corrupt_package_behaviour_witness :
    (get_filings_list envCorruptFirst "1" = some [wFiling, wFiling2] ∧
     DB.countAcc wSt0.db wFiling.accessionNumber = 0 ∧
     (fetchWithRetry envCorruptFirst (xbrlZipUrl "1" "A-1") 1 0).1 =
       some ZipData.corrupt) ∧
    (runFilings envCorruptFirst "1" "T" [wFiling, wFiling2]
        { wSt0 with newFilename := none } =
      (processEntity envCorruptFirst wEntity wSt0, some PyExn.badZipFile) ∧
     (processEntity envCorruptFirst wEntity wSt0).db = wSt0.db ∧
     FS.hasPath (processEntity envCorruptFirst wEntity wSt0).fs
       (pjoin (pjoin (pjoin filingsRoot "T") (strLower wFiling.form))
         (wFiling.accessionNumber ++ "-xbrl.zip")) = true ∧
     (∀ es2, runEntities envCorruptFirst (wEntity :: es2) wSt0 =
       runEntities envCorruptFirst es2 (processEntity envCorruptFirst wEntity wSt0))) :=
  ⟨⟨by decide, by decide, by decide⟩,
   C5_corrupt_package_behaviour envCorruptFirst wEntity wFiling [wFiling2] wSt0
     (by decide) (by decide) (by decide)⟩

/-! ### The stale `new_filename` insert (C6) and the skipped commit (C8) -/

/-- Environment where filing `A-1` extracts normally but filing `A-2`'s
package contains no `.xml` member. -/
def envStaleName : Env :=
  { catalog := fun c => if c = "1" then some [wFiling, wFiling2] else none,
    fetchArchive := fun url _ =>
      if url = xbrlZipUrl "1" "A-1" then
        FetchOutcome.success (ZipData.archive [⟨"a.xml", "x"⟩])
      else if url = xbrlZipUrl "1" "A-2" then
        FetchOutcome.success (ZipData.archive [⟨"note.txt", "y"⟩])
      else FetchOutcome.badStatus,
    fmtDate := fun s => s }

/-- C6 fails on the code: when filing `A-2`'s package contains no matching
member, the loop variable `new_filename` still holds filing `A-1`'s name, so
the run commits a ledger row for `A-2` whose `file_path` reuses `A-1`'s
deterministic document name under `A-2`'s form directory — a path at which
no file exists. -/
theorem C6_stale_filename_insert :
    ((main_run envStaleName [wEntity] [] []).map (fun res =>
        (accs res.committed,
         (res.committed.map (fun r => r.file_path)).get? 1,
         FS.lookup res.fs "D:/Filings/T/10-q/[10-K][2020-01-01][T].xbrl"))) =
      some (["A-1", "A-2"],
        some "D:/Filings/T/10-q/[10-K][2020-01-01][T].xbrl",
        none) := by
  decide

/-- Environment for C8: filing `A-1` succeeds, filing `A-2` is corrupt, so
the entity raises after one successful filing. -/
def envCommitLost : Env :=
  { catalog := fun c => if c = "1" then some [wFiling, wFiling2] else none,
    fetchArchive := fun url _ =>
      if url = xbrlZipUrl "1" "A-1" then
        FetchOutcome.success (ZipData.archive [⟨"a.xml", "x"⟩])
      else if url = xbrlZipUrl "1" "A-2" then FetchOutcome.success ZipData.corrupt
      else FetchOutcome.badStatus,
    fmtDate := fun s => s }

/-- C8 as stated is false: the entity's first filing succeeds (its document
is on disk at the end of the run) and then an entity-level exception occurs
at the second filing, yet the final durable ledger is empty — the handler
skipped the per-entity commit, so the successful filing's row was discarded
at `conn.close()` instead of being committed. -/
theorem C8_counterexample_lost_commit :
    ((main_run envCommitLost [wEntity] [] []).map (fun res =>
        (res.committed,
         FS.lookup res.fs "D:/Filings/T/10-k/[10-K][2020-01-01][T].xbrl"))) =
      some ([], some (FileData.doc "x")) := by
  decide

/-- C8 (amended): when an entity-level exception escapes the filing loop the
orchestrator does not commit — the committed ledger is unchanged and the
per-entity state is exactly the unwound state — and the run simply proceeds
with the remaining entities, so every entity of the input is attempted. -/
theorem C8_entity_exception_no_commit (env : Env) (e : Entity)
    (es2 : List Entity) (s : St) :
    (∀ fl s2 exn, get_filings_list env e.cik = some fl →
      download_and_unzip_filings env e.cik e.ticker fl s = (s2, some exn) →
      processEntity env e s = s2 ∧ s2.db.committed = s.db.committed) ∧
    runEntities env (e :: es2) s = runEntities env es2 (processEntity env e s) := by
  constructor
  · intro fl s2 exn hcat hdl
    constructor
    · simp only [processEntity, hcat, hdl]
    · have hc := rf_committed env e.cik e.ticker fl { s with newFilename := none }
      rw [download_and_unzip_filings] at hdl
      rw [hdl] at hc
      exact hc
  · simp only [runEntities]

/-- Witness for C8's amended theorem at the concrete lost-commit scenario. -/
theorem C8_entity_exception_no_commit_witness :
    (get_filings_list envCommitLost "1" = some [wFiling, wFiling2] ∧
     download_and_unzip_filings envCommitLost "1" "T" [wFiling, wFiling2] wSt0 =
       ((download_and_unzip_filings envCommitLost "1" "T" [wFiling, wFiling2] wSt0).1,
        some PyExn.badZipFile)) ∧
    (processEntity envCommitLost wEntity wSt0 =
       (download_and_unzip_filings envCommitLost "1" "T" [wFiling, wFiling2] wSt0).1 ∧
     (download_and_unzip_filings envCommitLost "1" "T" [wFiling, wFiling2] wSt0).1.db.committed =
       wSt0.db.committed) ∧
    runEntities envCommitLost [wEntity] wSt0 =
      runEntities envCommitLost [] (processEntity envCommitLost wEntity wSt0) :=
  ⟨⟨by decide, by decide⟩,
   (C8_entity_exception_no_commit envCommitLost wEntity [] wSt0).1
     [wFiling, wFiling2] _ PyExn.badZipFile (by decide) (by decide),
   (C8_entity_exception_no_commit envCommitLost wEntity [] wSt0).2⟩

/-! ### The member-extraction loop (C10) -/

lemma xmlMembers_cons_true {m : ZipMember} {rest : List ZipMember}
    (h : isXmlName m.name = true) :
    xmlMembers (m :: rest) = m :: xmlMembers rest := by
  simp [xmlMembers, List.filter_cons, h]

lemma xmlMembers_cons_false {m : ZipMember} {rest : List ZipMember}
    (h : isXmlName m.name = false) :
    xmlMembers (m :: rest) = xmlMembers rest := by
  simp [xmlMembers, List.filter_cons, h]

lemma extract_foldl_spec (form_dir ft rd tk : String) :
    ∀ (ms : List ZipMember) (fs : FS) (nf0 : Option String),
      (∀ m ∈ xmlMembers ms, m.name ≠ detName ft rd tk) →
      (xmlMembers ms = [] ∧
        ms.foldl (extractMember form_dir ft rd tk) (fs, nf0) = (fs, nf0)) ∨
      (∃ last, (xmlMembers ms).getLast? = some last ∧
        (ms.foldl (extractMember form_dir ft rd tk) (fs, nf0)).2 =
          some (detName ft rd tk) ∧
        FS.lookup (ms.foldl (extractMember form_dir ft rd tk) (fs, nf0)).1
          (pjoin form_dir (detName ft rd tk)) = some (FileData.doc last.data) ∧
        (∀ m ∈ xmlMembers ms,
          FS.lookup (ms.foldl (extractMember form_dir ft rd tk) (fs, nf0)).1
            (pjoin form_dir m.name) = none) ∧
        (∀ p, pjoin form_dir (detName ft rd tk) ≠ p →
          (∀ m ∈ xmlMembers ms, pjoin form_dir m.name ≠ p) →
          FS.lookup (ms.foldl (extractMember form_dir ft rd tk) (fs, nf0)).1 p =
            FS.lookup fs p)) := by
  intro ms
  induction ms with
  | nil => intro fs nf0 _; exact Or.inl ⟨rfl, rfl⟩
  | cons m rest ih =>
    intro fs nf0 hne
    by_cases hxm : isXmlName m.name = true
    · -- the member matches: it is extracted and renamed to the deterministic name
      have hmm : m ∈ xmlMembers (m :: rest) := by
        rw [xmlMembers_cons_true hxm]; exact List.mem_cons_self m _
      have hmne : m.name ≠ detName ft rd tk := hne m hmm
      have hdpm : pjoin form_dir (detName ft rd tk) ≠ pjoin form_dir m.name :=
        pjoin_right_ne (fun h => hmne h.symm)
      have hstep : extractMember form_dir ft rd tk (fs, nf0) m =
          (FS.rename
            (if FS.hasPath (FS.write fs (pjoin form_dir m.name) (FileData.doc m.data))
                (pjoin form_dir (detName ft rd tk))
             then FS.remove (FS.write fs (pjoin form_dir m.name) (FileData.doc m.data))
                (pjoin form_dir (detName ft rd tk))
             else FS.write fs (pjoin form_dir m.name) (FileData.doc m.data))
            (pjoin form_dir m.name) (pjoin form_dir (detName ft rd tk)),
           some (detName ft rd tk)) := by
        simp only [extractMember, hxm, if_true]
      have hl2m : FS.lookup
          (if FS.hasPath (FS.write fs (pjoin form_dir m.name) (FileData.doc m.data))
              (pjoin form_dir (detName ft rd tk))
           then FS.remove (FS.write fs (pjoin form_dir m.name) (FileData.doc m.data))
              (pjoin form_dir (detName ft rd tk))
           else FS.write fs (pjoin form_dir m.name) (FileData.doc m.data))
          (pjoin form_dir m.name) = some (FileData.doc m.data) := by
        split
        · rw [lookup_remove, if_neg hdpm, lookup_write, if_pos rfl]
        · rw [lookup_write, if_pos rfl]
      have hren : FS.rename
          (if FS.hasPath (FS.write fs (pjoin form_dir m.name) (FileData.doc m.data))
              (pjoin form_dir (detName ft rd tk))
           then FS.remove (FS.write fs (pjoin form_dir m.name) (FileData.doc m.data))
              (pjoin form_dir (detName ft rd tk))
           else FS.write fs (pjoin form_dir m.name) (FileData.doc m.data))
          (pjoin form_dir m.name) (pjoin form_dir (detName ft rd tk)) =
          FS.write (FS.remove
            (if FS.hasPath (FS.write fs (pjoin form_dir m.name) (FileData.doc m.data))
                (pjoin form_dir (detName ft rd tk))
             then FS.remove (FS.write fs (pjoin form_dir m.name) (FileData.doc m.data))
                (pjoin form_dir (detName ft rd tk))
             else FS.write fs (pjoin form_dir m.name) (FileData.doc m.data))
            (pjoin form_dir m.name))
            (pjoin form_dir (detName ft rd tk)) (FileData.doc m.data) := by
        rw [FS.rename, hl2m]
      have hdet3 : FS.lookup (FS.rename
          (if FS.hasPath (FS.write fs (pjoin form_dir m.name) (FileData.doc m.data))
              (pjoin form_dir (detName ft rd tk))
           then FS.remove (FS.write fs (pjoin form_dir m.name) (FileData.doc m.data))
              (pjoin form_dir (detName ft rd tk))
           else FS.write fs (pjoin form_dir m.name) (FileData.doc m.data))
          (pjoin form_dir m.name) (pjoin form_dir (detName ft rd tk)))
          (pjoin form_dir (detName ft rd tk)) = some (FileData.doc m.data) := by
        rw [hren, lookup_write, if_pos rfl]
      have hm3 : FS.lookup (FS.rename
          (if FS.hasPath (FS.write fs (pjoin form_dir m.name) (FileData.doc m.data))
              (pjoin form_dir (detName ft rd tk))
           then FS.remove (FS.write fs (pjoin form_dir m.name) (FileData.doc m.data))
              (pjoin form_dir (detName ft rd tk))
           else FS.write fs (pjoin form_dir m.name) (FileData.doc m.data))
          (pjoin form_dir m.name) (pjoin form_dir (detName ft rd tk)))
          (pjoin form_dir m.name) = none := by
        rw [hren, lookup_write, if_neg hdpm, lookup_remove, if_pos rfl]
      have hframe3 : ∀ p, pjoin form_dir (detName ft rd tk) ≠ p →
          pjoin form_dir m.name ≠ p →
          FS.lookup (FS.rename
            (if FS.hasPath (FS.write fs (pjoin form_dir m.name) (FileData.doc m.data))
                (pjoin form_dir (detName ft rd tk))
             then FS.remove (FS.write fs (pjoin form_dir m.name) (FileData.doc m.data))
                (pjoin form_dir (detName ft rd tk))
             else FS.write fs (pjoin form_dir m.name) (FileData.doc m.data))
            (pjoin form_dir m.name) (pjoin form_dir (detName ft rd tk)))
            p = FS.lookup fs p := by
        intro p hdp hmp
        rw [hren, lookup_write, if_neg hdp, lookup_remove, if_neg hmp]
        split
        · rw [lookup_remove, if_neg hdp, lookup_write, if_neg hmp]
        · rw [lookup_write, if_neg hmp]
      rw [List.foldl_cons, hstep]
      have hne2 : ∀ m2 ∈ xmlMembers rest, m2.name ≠ detName ft rd tk := by
        intro m2 hm2
        exact hne m2 (by rw [xmlMembers_cons_true hxm]; exact List.mem_cons_of_mem m hm2)
      rcases ih (FS.rename
          (if FS.hasPath (FS.write fs (pjoin form_dir m.name) (FileData.doc m.data))
              (pjoin form_dir (detName ft rd tk))
           then FS.remove (FS.write fs (pjoin form_dir m.name) (FileData.doc m.data))
              (pjoin form_dir (detName ft rd tk))
           else FS.write fs (pjoin form_dir m.name) (FileData.doc m.data))
          (pjoin form_dir m.name) (pjoin form_dir (detName ft rd tk)))
          (some (detName ft rd tk)) hne2 with
        ⟨hemp, heq⟩ | ⟨last, hlast, hsnd, hdet, hmems, hframe⟩
      · -- no further matching member: the fold leaves the step state unchanged
        right
        refine ⟨m, ?_, ?_, ?_, ?_, ?_⟩
        · rw [xmlMembers_cons_true hxm, hemp]; rfl
        · rw [heq]
        · rw [heq]; exact hdet3
        · intro m2 hm2
          rw [xmlMembers_cons_true hxm, hemp] at hm2
          rcases List.mem_cons.mp hm2 with rfl | h2
          · rw [heq]; exact hm3
          · cases h2
        · intro p hdp hmp
          rw [heq]
          exact hframe3 p hdp (hmp m hmm)
      · -- further matching members: the tail determines the final document
        right
        have hxrest : xmlMembers rest ≠ [] := by
          intro h0
          rw [h0] at hlast
          cases hlast
        refine ⟨last, ?_, hsnd, hdet, ?_, ?_⟩
        · rw [xmlMembers_cons_true hxm]
          cases hxr : xmlMembers rest with
          | nil => exact absurd hxr hxrest
          | cons b t =>
            rw [hxr] at hlast
            rw [List.getLast?_cons_cons]
            exact hlast
        · intro m2 hm2
          rw [xmlMembers_cons_true hxm] at hm2
          rcases List.mem_cons.mp hm2 with rfl | h2
          · by_cases hrec : ∀ m3 ∈ xmlMembers rest, pjoin form_dir m3.name ≠
                pjoin form_dir m2.name
            · rw [hframe (pjoin form_dir m2.name) hdpm hrec]
              exact hm3
            · push_neg at hrec
              obtain ⟨m3, hm3r, hp3⟩ := hrec
              have h4 := hmems m3 hm3r
              rw [hp3] at h4
              exact h4
          · exact hmems m2 h2
        · intro p hdp hmp
          have hmp2 : ∀ m2 ∈ xmlMembers rest, pjoin form_dir m2.name ≠ p := by
            intro m2 hm2
            exact hmp m2 (by rw [xmlMembers_cons_true hxm]; exact List.mem_cons_of_mem m hm2)
          rw [hframe p hdp hmp2]
          exact hframe3 p hdp (hmp m hmm)
    · -- the member does not match: the step is the identity
      have hxm2 : isXmlName m.name = false := by
        cases h : isXmlName m.name
        · rfl
        · exact absurd h hxm
      have hstep : extractMember form_dir ft rd tk (fs, nf0) m = (fs, nf0) := by
        simp only [extractMember, hxm2]
        rfl
      rw [List.foldl_cons, hstep]
      have hne2 : ∀ m2 ∈ xmlMembers rest, m2.name ≠ detName ft rd tk := by
        intro m2 hm2
        exact hne m2 (by rw [xmlMembers_cons_false hxm2]; exact hm2)
      rcases ih fs nf0 hne2 with ⟨hemp, heq⟩ | ⟨last, hlast, hsnd, hdet, hmems, hframe⟩
      · left
        rw [xmlMembers_cons_false hxm2]
        exact ⟨hemp, heq⟩
      · right
        rw [xmlMembers_cons_false hxm2]
        refine ⟨last, hlast, hsnd, hdet, hmems, ?_⟩
        intro p hdp hmp
        exact hframe p hdp hmp

lemma data_append (a b : String) : (a ++ b).data = a.data ++ b.data := rfl

lemma my_getLast?_append_cons {α : Type} :
    ∀ (l1 : List α) (c : α) (l2 : List α),
      (l1 ++ c :: l2).getLast? = (c :: l2).getLast? := by
  intro l1
  induction l1 with
  | nil => intro c l2; rfl
  | cons a t ih =>
    intro c l2
    rw [List.cons_append]
    have h2 := ih c l2
    cases ht : t ++ c :: l2 with
    | nil => exact absurd ht (by simp)
    | cons b u =>
      rw [List.getLast?_cons_cons]
      rw [ht] at h2
      exact h2

lemma detName_data_getLast? (ft rd tk : String) :
    (detName ft rd tk).data.getLast? = some 'l' := by
  show ((("[" ++ strUpper ft ++ "][" ++ rd ++ "][" ++ tk) ++ "].xbrl").data).getLast? =
    some 'l'
  rw [data_append,
    show ("].xbrl" : String).data = [']', '.', 'x', 'b', 'r', 'l'] from rfl,
    my_getLast?_append_cons]
  rfl

lemma zipname_data_getLast? (acc : String) :
    ((acc ++ "-xbrl.zip").data).getLast? = some 'p' := by
  rw [data_append,
    show ("-xbrl.zip" : String).data = ['-', 'x', 'b', 'r', 'l', '.', 'z', 'i', 'p']
      from rfl,
    my_getLast?_append_cons]
  rfl

lemma detName_ne_zipname (ft rd tk acc : String) :
    detName ft rd tk ≠ acc ++ "-xbrl.zip" := by
  intro h
  have h1 := detName_data_getLast? ft rd tk
  rw [h, zipname_data_getLast?] at h1
  exact absurd (Option.some.inj h1) (by decide)

/-- C10: when the downloaded package holds two or more members with the
target extension, every one of them is renamed to the same deterministic
name, so the iteration ends normally with exactly one document at the
deterministic path — holding the bytes of the last matching member — none of
the intermediate extraction paths left behind, the package file removed, and
the single inserted ledger row pointing at that one path. -/
theorem C10_multiple_xml_members (env : Env) (cik tk : String) (f : Filing)
    (s : St) (members : List ZipMember) (last : ZipMember)
    (hd : DB.countAcc s.db f.accessionNumber = 0)
    (hb : (fetchWithRetry env (xbrlZipUrl cik f.accessionNumber) 1 0).1 =
      some (ZipData.archive members))
    (_hlen : 2 ≤ (xmlMembers members).length)
    (hlast : (xmlMembers members).getLast? = some last)
    (hne : ∀ m ∈ xmlMembers members,
      m.name ≠ detName (strLower f.form) (env.fmtDate f.reportDate) tk) :
    ∃ s2, processFiling env cik tk f s = (s2, none) ∧
      s2.db = DB.insert s.db
        { ticker := tk, cik := cik, form_type := strLower f.form,
          report_date := env.fmtDate f.reportDate,
          accession_number := f.accessionNumber,
          file_path := pjoin (pjoin (pjoin filingsRoot tk) (strLower f.form))
            (detName (strLower f.form) (env.fmtDate f.reportDate) tk) } ∧
      FS.lookup s2.fs
        (pjoin (pjoin (pjoin filingsRoot tk) (strLower f.form))
          (detName (strLower f.form) (env.fmtDate f.reportDate) tk)) =
        some (FileData.doc last.data) ∧
      (∀ m ∈ xmlMembers members,
        FS.lookup s2.fs
          (pjoin (pjoin (pjoin filingsRoot tk) (strLower f.form)) m.name) = none) ∧
      FS.lookup s2.fs
        (pjoin (pjoin (pjoin filingsRoot tk) (strLower f.form))
          (f.accessionNumber ++ "-xbrl.zip")) = none := by
  have hnd : ¬ 0 < DB.countAcc s.db f.accessionNumber := by omega
  have hzd : pjoin (pjoin (pjoin filingsRoot tk) (strLower f.form))
      (f.accessionNumber ++ "-xbrl.zip") ≠
      pjoin (pjoin (pjoin filingsRoot tk) (strLower f.form))
        (detName (strLower f.form) (env.fmtDate f.reportDate) tk) :=
    pjoin_right_ne (fun h =>
      detName_ne_zipname (strLower f.form) (env.fmtDate f.reportDate) tk
        f.accessionNumber h.symm)
  rcases extract_foldl_spec (pjoin (pjoin filingsRoot tk) (strLower f.form))
      (strLower f.form) (env.fmtDate f.reportDate) tk members
      (FS.write s.fs (pjoin (pjoin (pjoin filingsRoot tk) (strLower f.form))
        (f.accessionNumber ++ "-xbrl.zip"))
        (FileData.zipf (ZipData.archive members)))
      s.newFilename hne with
    ⟨hemp, _⟩ | ⟨last2, hlast2, hsnd, hdet, hmems, hframe⟩
  · rw [hemp] at hlast
    cases hlast
  · have hl2 : last2 = last := by
      rw [hlast2] at hlast
      exact Option.some.inj hlast
    subst hl2
    simp only [processFiling, processFilingGen]
    rw [if_neg hnd]
    simp only [hb, hsnd]
    refine ⟨_, rfl, rfl, ?_, ?_, ?_⟩
    · rw [lookup_remove, if_neg hzd]
      exact hdet
    · intro m hm
      rw [lookup_remove]
      split
      · rfl
      · exact hmems m hm
    · rw [lookup_remove, if_pos rfl]

/-- Environment whose single filing's package holds two `.xml` members and
one non-matching member. -/
def envTwoXml : Env :=
  { catalog := fun c => if c = "1" then some [wFiling] else none,
    fetchArchive := fun url _ =>
      if url = xbrlZipUrl "1" "A-1" then
        FetchOutcome.success (ZipData.archive
          [⟨"a.xml", "first"⟩, ⟨"b.XML", "second"⟩, ⟨"c.txt", "no"⟩])
      else FetchOutcome.badStatus,
    fmtDate := fun s => s }

/-- Witness for C10 on a package with two `.xml` members: the last one wins. -/
theorem C10_multiple_xml_members_witness :
    (DB.countAcc wSt0.db wFiling.accessionNumber = 0 ∧
     (fetchWithRetry envTwoXml (xbrlZipUrl "1" "A-1") 1 0).1 =
       some (ZipData.archive
         [⟨"a.xml", "first"⟩, ⟨"b.XML", "second"⟩, ⟨"c.txt", "no"⟩]) ∧
     2 ≤ (xmlMembers
       [⟨"a.xml", "first"⟩, ⟨"b.XML", "second"⟩, ⟨"c.txt", "no"⟩]).length ∧
     (xmlMembers
       [⟨"a.xml", "first"⟩, ⟨"b.XML", "second"⟩, ⟨"c.txt", "no"⟩]).getLast? =
       some ⟨"b.XML", "second"⟩ ∧
     (∀ m ∈ xmlMembers
        [⟨"a.xml", "first"⟩, ⟨"b.XML", "second"⟩, ⟨"c.txt", "no"⟩],
        m.name ≠ detName (strLower wFiling.form)
          (envTwoXml.fmtDate wFiling.reportDate) "T")) ∧
    (∃ s2, processFiling envTwoXml "1" "T" wFiling wSt0 = (s2, none) ∧
      s2.db = DB.insert wSt0.db
        { ticker := "T", cik := "1", form_type := strLower wFiling.form,
          report_date := envTwoXml.fmtDate wFiling.reportDate,
          accession_number := wFiling.accessionNumber,
          file_path := pjoin (pjoin (pjoin filingsRoot "T") (strLower wFiling.form))
            (detName (strLower wFiling.form)
              (envTwoXml.fmtDate wFiling.reportDate) "T") } ∧
      FS.lookup s2.fs
        (pjoin (pjoin (pjoin filingsRoot "T") (strLower wFiling.form))
          (detName (strLower wFiling.form)
            (envTwoXml.fmtDate wFiling.reportDate) "T")) =
        some (FileData.doc "second") ∧
      (∀ m ∈ xmlMembers
         [⟨"a.xml", "first"⟩, ⟨"b.XML", "second"⟩, ⟨"c.txt", "no"⟩],
         FS.lookup s2.fs
           (pjoin (pjoin (pjoin filingsRoot "T") (strLower wFiling.form))
             m.name) = none) ∧
      FS.lookup s2.fs
        (pjoin (pjoin (pjoin filingsRoot "T") (strLower wFiling.form))
          (wFiling.accessionNumber ++ "-xbrl.zip")) = none) :=
  ⟨⟨by decide, by decide, by decide, by decide, by decide⟩,
   C10_multiple_xml_members envTwoXml "1" "T" wFiling wSt0
     [⟨"a.xml", "first"⟩, ⟨"b.XML", "second"⟩, ⟨"c.txt", "no"⟩]
     ⟨"b.XML", "second"⟩ (by decide) (by decide) (by decide) (by decide)
     (by decide)⟩

/-! ### Uniqueness invariant (C7) and idempotent re-run (C1) -/

lemma my_getLast?_mem {α : Type} :
    ∀ (l : List α) (a : α), l.getLast? = some a → a ∈ l := by
  intro l
  induction l with
  | nil => intro a h; cases h
  | cons b t ih =>
    intro a h
    cases t with
    | nil =>
      rw [List.getLast?_singleton] at h
      rw [← Option.some.inj h]
      exact List.mem_cons_self b []
    | cons c t2 =>
      rw [List.getLast?_cons_cons] at h
      exact List.mem_cons_of_mem b (ih a h)

/-- Filings of an entity as the orchestrator sees them (empty when the
catalog lookup raises). -/
def filingsOf (env : Env) (e : Entity) : List Filing :=
  (get_filings_list env e.cik).getD []

lemma filingsOf_eq (env : Env) (e : Entity) (fl : List Filing)
    (h : get_filings_list env e.cik = some fl) : filingsOf env e = fl := by
  rw [filingsOf, h]
  rfl

/-- C7: the `accession_number` column is kept unique logically, not by
schema: (a) a filing-loop iteration inserts a row only when the pre-insert
`SELECT COUNT(*)` existence check found no row with that accession number;
(b) starting from a ledger with pairwise-distinct accession numbers, any
completed run of `main` ends with a durable ledger whose accession numbers
are still pairwise distinct; (c) no column of the `filings` schema carries a
UNIQUE constraint. -/
theorem C7_accession_number_unique (env : Env) (es : List Entity)
    (L : List LedgerRecord) (fs0 : FS) (res : RunResult)
    (hL : (accs L).Nodup)
    (hrun : main_run env es L fs0 = some res) :
    (∀ (cik tk : String) (N : Nat) (f : Filing) (s : St) (r : LedgerRecord),
      (processFilingGen env cik tk N f s).1.db.pending = s.db.pending ++ [r] →
      DB.countAcc s.db f.accessionNumber = 0) ∧
    (accs res.committed).Nodup ∧
    (∀ col ∈ filingsSchema, col.hasUniqueConstraint = false) := by
  refine ⟨?_, ?_, by decide⟩
  · intro cik tk N f s r hp
    rcases pf_cases env cik tk N f s with h | ⟨rd, nf, h0, h⟩
    · rw [h] at hp
      have : s.db.pending.length = s.db.pending.length + 1 := by
        conv_lhs => rw [hp]
        simp
      omega
    · exact h0
  · cases hres : resumeEntities L es with
    | none =>
      rw [main_run, hres] at hrun
      cases hrun
    | some es2 =>
      rw [main_run, hres] at hrun
      simp only [Option.some.injEq] at hrun
      have hcom : res.committed =
          (runEntities env es2
            { db := { committed := L, pending := [] }, fs := fs0,
              fetchCalls := 0, newFilename := none }).db.committed := by
        rw [← hrun]
        rfl
      have hinit : (accs (DB.view
          (({ db := { committed := L, pending := [] }, fs := fs0,
              fetchCalls := 0, newFilename := none } : St).db))).Nodup := by
        simpa [DB.view, accs] using hL
      have hfin := re_nodup env es2
        { db := { committed := L, pending := [] }, fs := fs0,
          fetchCalls := 0, newFilename := none } hinit
      rw [hcom]
      have hsplit : accs (DB.view (runEntities env es2
          { db := { committed := L, pending := [] }, fs := fs0,
            fetchCalls := 0, newFilename := none }).db) =
          accs (runEntities env es2
            { db := { committed := L, pending := [] }, fs := fs0,
              fetchCalls := 0, newFilename := none }).db.committed ++
          accs (runEntities env es2
            { db := { committed := L, pending := [] }, fs := fs0,
              fetchCalls := 0, newFilename := none }).db.pending := by
        simp [DB.view, accs]
      rw [hsplit] at hfin
      exact hfin.of_append_left

/-- Result of the successful single-entity run used by several witnesses. -/
def wRunResOne : RunResult :=
  { committed := [{ ticker := "T",
                    cik := "1",
                    form_type := "10-k",
                    report_date := "2020-01-01",
                    accession_number := "A-1",
                    file_path := "D:/Filings/T/10-k/[10-K][2020-01-01][T].xbrl" }],
    fs := [("D:/Filings/T/10-k/[10-K][2020-01-01][T].xbrl", FileData.doc "second")],
    fetchCalls := 1 }

/-- Witness for C7 on a concrete completed run. -/
theorem C7_accession_number_unique_witness :
    ((accs ([] : List LedgerRecord)).Nodup ∧
     main_run envTwoXml [wEntity] [] [] = some wRunResOne) ∧
    ((∀ (cik tk : String) (N : Nat) (f : Filing) (s : St) (r : LedgerRecord),
       (processFilingGen envTwoXml cik tk N f s).1.db.pending =
         s.db.pending ++ [r] →
       DB.countAcc s.db f.accessionNumber = 0) ∧
     (accs wRunResOne.committed).Nodup ∧
     (∀ col ∈ filingsSchema, col.hasUniqueConstraint = false)) :=
  ⟨⟨by decide, by decide⟩,
   C7_accession_number_unique envTwoXml [wEntity] [] [] wRunResOne
     (by decide) (by decide)⟩

/-- C1: after a first run from an empty ledger in which every eligible
filing of every entity ended up ledgered, a second run of `main` over the
same entity list against the same environment performs zero archive download
attempts and leaves the durable ledger exactly as the first run left it — no
duplicate rows, every filing skipped at the dedup check before any fetch. -/
theorem C1_second_run_idempotent (env : Env) (es : List Entity) (fs0 : FS)
    (out1 : RunResult)
    (h1 : main_run env es [] fs0 = some out1)
    (hall : ∀ e ∈ es, ∀ f ∈ filingsOf env e,
      f.accessionNumber ∈ accs out1.committed) :
    ∃ out2, main_run env es out1.committed fs0 = some out2 ∧
      out2.fetchCalls = 0 ∧ out2.committed = out1.committed := by
  have hres0 : resumeEntities [] es = some es := rfl
  rw [main_run, hres0] at h1
  simp only [Option.some.injEq] at h1
  have hcom : out1.committed =
      (runEntities env es
        { db := { committed := [], pending := [] }, fs := fs0,
          fetchCalls := 0, newFilename := none }).db.committed := by
    rw [← h1]
    rfl
  have hprov : ∀ r ∈ out1.committed, r.ticker ∈ es.map Entity.ticker := by
    intro r hr
    rw [hcom] at hr
    have hview : r ∈ DB.view (runEntities env es
        { db := { committed := [], pending := [] }, fs := fs0,
          fetchCalls := 0, newFilename := none }).db :=
      List.mem_append.mpr (Or.inl hr)
    rcases re_view_mem env es
        { db := { committed := [], pending := [] }, fs := fs0,
          fetchCalls := 0, newFilename := none } r hview with h | h
    · simp [DB.view] at h
    · exact h
  obtain ⟨es2, hres2, hsub⟩ :
      ∃ es2, resumeEntities out1.committed es = some es2 ∧
        ∀ e ∈ es2, e ∈ es := by
    cases hL : out1.committed.getLast? with
    | none =>
      refine ⟨es, ?_, fun e he => he⟩
      simp only [resumeEntities, hL]
    | some r =>
      have hrmem : r ∈ out1.committed := my_getLast?_mem _ _ hL
      obtain ⟨e, hemem, het⟩ := List.mem_map.mp (hprov r hrmem)
      obtain ⟨i, hi⟩ := firstTickerIdx_isSome r.ticker es ⟨e, hemem, het⟩
      refine ⟨es.drop i, ?_, fun e2 he2 => List.drop_subset i es he2⟩
      simp only [resumeEntities, hL, hi]
  have hall2 : ∀ e ∈ es2, ∀ fl, get_filings_list env e.cik = some fl →
      ∀ f ∈ fl, f.accessionNumber ∈ accs out1.committed := by
    intro e he fl hcat f hf
    have := hall e (hsub e he) f (by rw [filingsOf_eq env e fl hcat]; exact hf)
    exact this
  obtain ⟨nf2, hre⟩ := re_all_ledgered env out1.committed fs0 0 es2 hall2 none
  refine ⟨{ committed := out1.committed, fs := fs0, fetchCalls := 0 },
    ?_, rfl, rfl⟩
  simp only [main_run, hres2, hre]
  rfl

/-- Witness for C1: the single-entity run succeeds fully, and the second run
fetches nothing and changes nothing. -/
theorem C1_second_run_idempotent_witness :
    (main_run envTwoXml [wEntity] [] [] = some wRunResOne ∧
     (∀ e ∈ [wEntity], ∀ f ∈ filingsOf envTwoXml e,
       f.accessionNumber ∈ accs wRunResOne.committed)) ∧
    (∃ out2, main_run envTwoXml [wEntity] wRunResOne.committed [] = some out2 ∧
      out2.fetchCalls = 0 ∧ out2.committed = wRunResOne.committed) :=
  ⟨⟨by decide, by decide⟩,
   C1_second_run_idempotent envTwoXml [wEntity] [] wRunResOne
     (by decide) (by decide)⟩
